import Mathlib

/-!
Verification of the zone-based data-lake pipeline engine
(`src/data_ingestion/data_lake.py`, `src/data_ingestion/file_utils.py`,
`src/data_ingestion/data_lake_interface.py`).

Strings are modelled at the character-list level (`List Char`), with
`String` used at the interfaces.  Python helpers (`str.split`,
`os.path.basename`, `os.path.splitext`) are embedded as executable
functions below; the S3 store is a key/value association list; functions
that can raise are embedded as `Option`-returning functions or as oracle
fields of an environment structure.
-/

/-- splitOnChar c cs models Python str.split(sep) for a one-character
separator: it always returns at least one (possibly empty) chunk. -/
def splitOnChar (c : Char) : List Char → List (List Char)
  | [] => [[]]
  | x :: xs =>
    let r := splitOnChar c xs
    if x = c then [] :: r
    else
      match r with
      | [] => [[x]]
      | y :: ys => (x :: y) :: ys

/-- intercalateChar c parts joins chunks with the separator character,
the inverse of splitOnChar on separator-free chunks. -/
def intercalateChar (c : Char) : List (List Char) → List Char
  | [] => []
  | p :: ps => p ++ (ps.flatMap fun q => c :: q)

/-- splitSlash s models Python s.split('/'). -/
def splitSlash (s : String) : List String :=
  (splitOnChar '/' s.data).map String.mk

/-- basename s models os.path.basename: the part after the last slash. -/
def basename (s : String) : String :=
  (splitSlash s).getLastD ""

/-- lastIdxOf cs c is the index of the last occurrence of c in cs,
modelling Python str.rfind for a single character. -/
def lastIdxOf : List Char → Char → Option Nat
  | [], _ => none
  | x :: xs, c =>
    match lastIdxOf xs c with
    | some i => some (i + 1)
    | none => if x = c then some 0 else none

/-- splitext p models os.path.splitext: splits at the last dot after the
last slash, except that leading dots of the final path component never
begin an extension. -/
def splitext (p : String) : String × String :=
  let cs := p.data
  match lastIdxOf cs '.' with
  | none => (p, "")
  | some d =>
    let base : Nat :=
      match lastIdxOf cs '/' with
      | none => 0
      | some s => s + 1
    if d < base then (p, "")
    else if ((cs.drop base).take (d - base)).any (fun c => c ≠ '.') then
      (String.mk (cs.take d), String.mk (cs.drop d))
    else (p, "")

/-- fileExtension models S3FileUtils._get_file_extension: the extension
of the path, lower-cased, including the leading dot. -/
def fileExtension (p : String) : String :=
  String.mk ((splitext p).2.data.map Char.toLower)

/-- zones is the fixed zone catalog set in S3DataLake.__init__. -/
def zones : List String := ["raw", "processed", "enriched", "curated"]

/-- an S3 store is modelled as an association list from full keys to
object bodies (character lists); a put overwrites any object at the key. -/
abbrev S3Store := List (String × List Char)

/-- putObject st key body models a successful s3.put / upload at key. -/
def putObject (st : S3Store) (key : String) (body : List Char) : S3Store :=
  (key, body) :: st.filter fun kv => kv.1 ≠ key

/-- lookupObject st key models s3 object retrieval (none = not found). -/
def lookupObject (st : S3Store) (key : String) : Option (List Char) :=
  (st.find? fun kv => kv.1 = key).map fun kv => kv.2

/-- deleteObject st key models s3.delete_object. -/
def deleteObject (st : S3Store) (key : String) : S3Store :=
  st.filter fun kv => kv.1 ≠ key

/-- upload_file models S3DataLake.upload_file: reject an invalid zone
before touching the store, else compute the key zone/<path or basename>
and put the local file body there; netOk models the absence of a
ClientError from the network call. -/
def upload_file (st : S3Store) (netOk : Bool) (localBody : List Char)
    (localFilePath : String) (zone : String) (s3FilePath : Option String) :
    Bool × S3Store :=
  if zones.contains zone then
    let p := match s3FilePath with
      | none => basename localFilePath
      | some q => q
    let key := zone ++ "/" ++ p
    if netOk then (true, putObject st key localBody) else (false, st)
  else
    (false, st)

/-- move_file models S3DataLake.move_file: reject an invalid target zone
before touching the store, else copy the source object to
targetZone/<path or basename> and delete the source; a missing source
raises in copy_object, leaving the store unchanged. -/
def move_file (st : S3Store) (sourceKey : String) (targetZone : String)
    (targetPath : Option String) : Bool × S3Store :=
  if zones.contains targetZone then
    let tp := match targetPath with
      | none => basename sourceKey
      | some q => q
    let targetKey := targetZone ++ "/" ++ tp
    match lookupObject st sourceKey with
    | none => (false, st)
    | some body => (true, deleteObject (putObject st targetKey body) sourceKey)
  else
    (false, st)

/-- create_folder models S3DataLake.create_folder: reject an invalid zone
before touching the store, else put an empty object at
zone/<folderPath with a trailing slash>. -/
def create_folder (st : S3Store) (zone : String) (folderPath : String) :
    Bool × S3Store :=
  if zones.contains zone then
    let fp := if folderPath.endsWith "/" then folderPath else folderPath ++ "/"
    (true, putObject st (zone ++ "/" ++ fp) [])
  else
    (false, st)

/-- targetZone i total is the target-zone computation of
DataLakeInterface.process_data_pipeline for step index i of total steps. -/
def targetZone (i total : Nat) : String :=
  if i == 0 then "processed"
  else if i == total - 1 then "curated"
  else "enriched"

/-- CsvField is the value domain of the tabular codec: integer cells,
string cells, and (as parse results only) cells of a column that pandas
converts away from its literal text: members of a float64 or bool column
and NA tokens replaced by NaN.  The converted scalar itself is floating
point or boolean and is not modelled further; the constructor records
only the original cell text and the fact that the parse result is not
that string. -/
inductive CsvField where
  | int (n : Int)
  | str (s : String)
  | nonstring (cell : String)
deriving DecidableEq, Repr

/-- CsvRecord is one row as an ordered string-keyed mapping (one
dictionary of DataFrame.to_dict with orient records). -/
abbrev CsvRecord := List (String × CsvField)

/-- renderNatGo writes the decimal digits of n, most significant first;
the fuel argument only bounds the recursion and any fuel of at least the
digit count gives the full numeral. -/
def renderNatGo : Nat → Nat → List Char
  | 0, _ => []
  | fuel + 1, n =>
    if n < 10 then [Nat.digitChar n]
    else renderNatGo fuel (n / 10) ++ [Nat.digitChar (n % 10)]

/-- renderNat is the standard decimal numeral of a natural number. -/
def renderNat (n : Nat) : List Char :=
  renderNatGo (n + 1) n

/-- renderInt is the standard decimal text of an integer, the text that
str and DataFrame.to_csv write for an int value. -/
def renderInt : Int → List Char
  | .ofNat m => renderNat m
  | .negSucc m => '-' :: renderNat (m + 1)

/-- CsvAttempts holds the three parse attempts of S3FileUtils._parse_csv
as oracles: pd.read_csv with the default encoding, pd.read_csv with
encoding latin1, and the csv.DictReader fallback; none models the attempt
raising an exception. -/
structure CsvAttempts where
  readDefault : List Char → Option (List CsvRecord)
  readLatin1 : List Char → Option (List CsvRecord)
  dictReader : List Char → Option (List CsvRecord)

/-- parse_csv models the control flow of S3FileUtils._parse_csv: try the
default-encoding read, on exception retry with latin1, on exception again
log and fall back to the plain csv.DictReader, whose own exception
propagates to the caller (none). -/
def parse_csv (a : CsvAttempts) (bytes : List Char) : Option (List CsvRecord) :=
  match a.readDefault bytes with
  | some r => some r
  | none =>
    match a.readLatin1 bytes with
    | some r => some r
    | none => a.dictReader bytes

/-- FileContent is the parsed-content shape download_and_parse can
return: tabular records, a sheet map, plain text, or an opaque decoded
document tree for JSON and YAML (held abstractly as a string tag). -/
inductive FileContent where
  | table (records : List CsvRecord)
  | sheets (m : List (String × List CsvRecord))
  | text (s : String)
  | doc (tag : String)
deriving DecidableEq, Repr

/-- FileEnv packages the store download and the format parsers used by
S3FileUtils.download_and_parse; a parser returning none models the parse
raising, which the enclosing try converts to the (None, None) result. -/
structure FileEnv where
  download : String → Option (List Char)
  parseCsvFile : List Char → Option FileContent
  parseJson : List Char → Option FileContent
  parseYaml : List Char → Option FileContent
  parseExcel : List Char → Option FileContent
  parseText : List Char → Option FileContent

/-- download_and_parse models S3FileUtils.download_and_parse: download
the key, dispatch on the lower-cased extension to the matching parser and
MIME tag, return (None, application/pdf) for the unimplemented pdf branch
and (None, application/octet-stream) for any unregistered extension. -/
def download_and_parse (env : FileEnv) (s3Key : String) :
    Option FileContent × Option String :=
  match env.download s3Key with
  | none => (none, none)
  | some bytes =>
    let ext := fileExtension s3Key
    if ext == ".csv" || ext == ".tsv" then
      match env.parseCsvFile bytes with
      | none => (none, none)
      | some c => (some c, some "text/csv")
    else if ext == ".json" then
      match env.parseJson bytes with
      | none => (none, none)
      | some c => (some c, some "application/json")
    else if ext == ".yaml" || ext == ".yml" then
      match env.parseYaml bytes with
      | none => (none, none)
      | some c => (some c, some "application/yaml")
    else if ext == ".xlsx" || ext == ".xls" then
      match env.parseExcel bytes with
      | none => (none, none)
      | some c =>
        (some c,
         some "application/vnd.openxmlformats-officedocument.spreadsheetml.sheet")
    else if ext == ".txt" then
      match env.parseText bytes with
      | none => (none, none)
      | some c => (some c, some "text/plain")
    else if ext == ".pdf" then
      (none, some "application/pdf")
    else
      (none, some "application/octet-stream")

/-- PipeEnv packages the collaborators of
DataLakeInterface.process_data_pipeline for one run, with content of type
α: isLocal models os.path.exists, uploadRawOk the success of the initial
upload_file to the raw zone, parse the parse_file result on an S3 key
(none = parse failed), saveOk the success of save_and_upload at a given
target key, and ts the timestamp string datetime.now produces when a
given input reaches a given step index. -/
structure PipeEnv (α : Type) where
  isLocal : String → Bool
  uploadRawOk : String → Bool
  parse : String → Option α
  saveOk : String → Bool
  ts : String → Nat → String

/-- PipeState is the per-input mutable state of the pipeline loop:
current_content, current_zone and current_path. -/
structure PipeState (α : Type) where
  content : α
  zone : String
  path : String
deriving DecidableEq, Repr

/-- resolveInput models the pre-step part of the per-input loop body: a
local file is uploaded to the raw zone (one store write) and the uploaded
key parsed; an S3 key is parsed directly, its zone read from the key
prefix when the key has a slash; the write list records successful store
writes and none for the state means the input is skipped. -/
def resolveInput (env : PipeEnv α) (input : String) :
    List String × Option (PipeState α) :=
  if env.isLocal input then
    let filename := basename input
    if env.uploadRawOk input then
      let rawKey := "raw/" ++ filename
      match env.parse rawKey with
      | none => ([rawKey], none)
      | some c => ([rawKey], some ⟨c, "raw", filename⟩)
    else ([], none)
  else
    match env.parse input with
    | none => ([], none)
    | some c =>
      let parts := splitSlash input
      let z := if parts.length > 1 then parts.headD "raw" else "raw"
      ([], some ⟨c, z, basename input⟩)

/-- runSteps models the step loop of process_data_pipeline from step
index i of total steps: apply the step function (none = the step raised),
name the output <base>_<i+1>_<timestamp><ext> from the current path,
save it under the target zone, and either advance the state or break,
collecting the keys of the successful writes. -/
def runSteps (env : PipeEnv α) (input : String) (total : Nat) :
    Nat → List (α → Option α) → PipeState α → List String × PipeState α
  | _, [], st => ([], st)
  | i, f :: rest, st =>
    let tz := targetZone i total
    match f st.content with
    | none => ([], st)
    | some pc =>
      let np := splitext st.path
      let fname := np.1 ++ "_" ++ toString (i + 1) ++ "_" ++ env.ts input i ++ np.2
      let key := tz ++ "/" ++ fname
      if env.saveOk key then
        let r := runSteps env input total (i + 1) rest ⟨pc, tz, fname⟩
        (key :: r.1, r.2)
      else ([], st)

/-- finalizeRun models the result-inclusion test at the end of the
per-input loop body: the final zone/path is a result entry exactly when
the final zone is curated or enriched. -/
def finalizeRun (st : PipeState α) : Option String :=
  if st.zone == "curated" || st.zone == "enriched" then
    some (st.zone ++ "/" ++ st.path)
  else
    none

/-- processInput runs the whole per-input loop body: resolution, the step
loop, and the result-inclusion test, returning the store writes this
input performed and its optional result entry. -/
def processInput (env : PipeEnv α) (steps : List (α → Option α))
    (input : String) : List String × Option String :=
  match resolveInput env input with
  | (ws, none) => (ws, none)
  | (ws, some st0) =>
    let r := runSteps env input steps.length 0 steps st0
    (ws ++ r.1, finalizeRun r.2)

/-- pipelineFinalState is the per-input final pipeline state (none when
the input was skipped before the step loop). -/
def pipelineFinalState (env : PipeEnv α) (steps : List (α → Option α))
    (input : String) : Option (PipeState α) :=
  match (resolveInput env input).2 with
  | none => none
  | some st0 => some (runSteps env input steps.length 0 steps st0).2

/-- process_data_pipeline models
DataLakeInterface.process_data_pipeline: every input is processed
independently in order and the result entries are accumulated. -/
def process_data_pipeline (env : PipeEnv α) (steps : List (α → Option α)) :
    List String → List String
  | [] => []
  | input :: rest =>
    match (processInput env steps input).2 with
    | some k => k :: process_data_pipeline env steps rest
    | none => process_data_pipeline env steps rest

/-- pipelineWrites collects the successful store writes of a whole
pipeline run in order. -/
def pipelineWrites (env : PipeEnv α) (steps : List (α → Option α)) :
    List String → List String
  | [] => []
  | input :: rest =>
    (processInput env steps input).1 ++ pipelineWrites env steps rest

/-- FileInfo is one entry of S3DataLake.list_files. -/
structure FileInfo where
  key : String
  size : Nat
  lastModified : String
  zone : String
deriving DecidableEq, Repr

/-- ObjMeta is the metadata record S3DataLake.get_file_metadata returns
on success; only the user metadata mapping matters to the search. -/
structure ObjMeta where
  metadata : List (String × String)
deriving DecidableEq, Repr

/-- SearchEnv packages the two store reads
DataLakeInterface.search_files_by_metadata performs: the object listing
for an optional zone, and the per-key metadata fetch (none = error). -/
structure SearchEnv where
  listFiles : Option String → List FileInfo
  getMetadata : String → Option ObjMeta

/-- matchesFilters models the inner filter loop: every filter key must be
present in the object metadata with exactly the filter value. -/
def matchesFilters (filters : List (String × String))
    (md : List (String × String)) : Bool :=
  filters.all fun kv =>
    match List.lookup kv.1 md with
    | some v => v == kv.2
    | none => false

/-- search_files_by_metadata models
DataLakeInterface.search_files_by_metadata: list the files, fetch each
metadata record, keep the files whose metadata matches every filter. -/
def search_files_by_metadata (env : SearchEnv)
    (filters : List (String × String)) (zone : Option String) :
    List FileInfo :=
  (env.listFiles zone).filter fun fi =>
    match env.getMetadata fi.key with
    | some m => matchesFilters filters m.metadata
    | none => false

/-- C2: the claim asserts that the final step of a one-step pipeline
targets the last zone curated; in the code the i == 0 branch takes
priority, so the only step of a one-step pipeline targets processed. -/
theorem C2_one_step_targets_processed_not_curated :
    targetZone 0 1 = "processed" ∧ targetZone 0 1 ≠ "curated" := by
  decide

/-- C2 (amended): the target zone of step i of total steps is processed
when i = 0 (this branch takes priority even when the step is also the
final one), curated when i is the final index and not 0, and enriched
otherwise. -/
theorem C2_step_zone_mapping (i total : Nat) :
    (i = 0 → targetZone i total = "processed") ∧
    (i ≠ 0 → i = total - 1 → targetZone i total = "curated") ∧
    (i ≠ 0 → i ≠ total - 1 → targetZone i total = "enriched") := by
  refine ⟨fun h => ?_, fun h0 hl => ?_, fun h0 hl => ?_⟩
  · subst h; rfl
  · subst hl; simp [targetZone, h0]
  · simp [targetZone, h0, hl]

/-- C5: for a zone outside the catalog, upload_file, move_file and
create_folder all return failure with the store untouched: the zone check
runs before any store call. -/
theorem C5_invalid_zone_rejected (st : S3Store) (netOk : Bool)
    (body : List Char) (localPath z : String) (s3Path : Option String)
    (srcKey : String) (tgtPath : Option String) (folderPath : String)
    (h : zones.contains z = false) :
    upload_file st netOk body localPath z s3Path = (false, st) ∧
    move_file st srcKey z tgtPath = (false, st) ∧
    create_folder st z folderPath = (false, st) := by
  have h2 : ¬ z ∈ zones := by simpa using h
  refine ⟨?_, ?_, ?_⟩ <;>
    simp [upload_file, move_file, create_folder, h2]

/-- C5 witness: the zone staging is outside the catalog and all three
operations reject it on an empty store. -/
theorem C5_invalid_zone_rejected_witness :
    upload_file [] true [] "f.csv" "staging" none = (false, []) ∧
    move_file [] "raw/f.csv" "staging" none = (false, []) ∧
    create_folder [] "staging" "sub" = (false, []) :=
  C5_invalid_zone_rejected [] true [] "f.csv" "staging" none "raw/f.csv" none
    "sub" (by decide)

/-- splitting a separator-free chunk returns just that chunk. -/
theorem splitOnChar_of_not_mem {c : Char} {p : List Char} (hc : c ∉ p) :
    splitOnChar c p = [p] := by
  induction p with
  | nil => rfl
  | cons x xs ih =>
    have hx : x ≠ c := fun h => hc (h ▸ List.mem_cons_self x xs)
    have hxs : c ∉ xs := fun h => hc (List.mem_cons_of_mem x h)
    simp [splitOnChar, hx, ih hxs]

/-- splitting past a leading separator-free chunk and one separator peels
off that chunk. -/
theorem splitOnChar_append_cons {c : Char} {p : List Char} (hc : c ∉ p)
    (t : List Char) : splitOnChar c (p ++ c :: t) = p :: splitOnChar c t := by
  induction p with
  | nil => simp [splitOnChar]
  | cons x xs ih =>
    have hx : x ≠ c := fun h => hc (h ▸ List.mem_cons_self x xs)
    have hxs : c ∉ xs := fun h => hc (List.mem_cons_of_mem x h)
    have hr := ih hxs
    simp only [List.cons_append, splitOnChar, hx, if_false, List.append_eq, hr]

/-- joining at least two chunks starts with the first chunk and one
separator. -/
theorem intercalateChar_cons_ne (c : Char) (p : List Char)
    {ps : List (List Char)} (h : ps ≠ []) :
    intercalateChar c (p :: ps) = p ++ c :: intercalateChar c ps := by
  cases ps with
  | nil => exact absurd rfl h
  | cons q rest => simp [intercalateChar]

/-- splitOnChar is a left inverse of intercalateChar on nonempty lists of
separator-free chunks. -/
theorem splitOnChar_intercalateChar {c : Char} {parts : List (List Char)}
    (hne : parts ≠ []) (hc : ∀ p ∈ parts, c ∉ p) :
    splitOnChar c (intercalateChar c parts) = parts := by
  induction parts with
  | nil => exact absurd rfl hne
  | cons p ps ih =>
    cases ps with
    | nil =>
      simp only [intercalateChar, List.flatMap_nil, List.append_nil]
      exact splitOnChar_of_not_mem (hc p (List.mem_cons_self p []))
    | cons q rest =>
      rw [intercalateChar_cons_ne c p (by simp)]
      rw [splitOnChar_append_cons (hc p (List.mem_cons_self p _))]
      rw [ih (by simp) (fun r hr => hc r (List.mem_cons_of_mem p hr))]

/-- mk after data is the identity on strings. -/
theorem string_mk_data (s : String) : String.mk s.data = s := by
  cases s
  rfl

/-- the pipeline result list is the filterMap of the per-input result:
inputs are processed independently. -/
theorem pipeline_eq_filterMap {α : Type} (env : PipeEnv α)
    (steps : List (α → Option α)) (inputs : List String) :
    process_data_pipeline env steps inputs =
      inputs.filterMap fun i => (processInput env steps i).2 := by
  induction inputs with
  | nil => rfl
  | cons a l ih =>
    cases h : (processInput env steps a).2 <;>
      simp [process_data_pipeline, h, ih]

/-- the per-input result entry is the finalize test applied to the final
pipeline state. -/
theorem processInput_result {α : Type} (env : PipeEnv α)
    (steps : List (α → Option α)) (input : String) :
    (processInput env steps input).2 =
      match pipelineFinalState env steps input with
      | none => none
      | some st => finalizeRun st := by
  unfold processInput pipelineFinalState
  cases h : resolveInput env input with
  | mk ws o => cases o <;> simp

/-- c1Env is the concrete batch scenario of C1: three S3-key inputs whose
parsed contents are 1, 2 and 3, every save succeeding, one fixed
timestamp. -/
def c1Env : PipeEnv Nat where
  isLocal := fun _ => false
  uploadRawOk := fun _ => true
  parse := fun k =>
    if k == "a.csv" then some 1
    else if k == "b.csv" then some 2
    else if k == "c.csv" then some 3
    else none
  saveOk := fun _ => true
  ts := fun _ _ => "20250101_120000"

/-- c1Steps is a two-step pipeline whose second step raises exactly on
the content of the second input. -/
def c1Steps : List (Nat → Option Nat) :=
  [fun n => some n, fun n => if n == 2 then none else some n]

/-- C1: the pipeline processes inputs independently (the results of a
batch decompose input by input), and in the concrete batch of three
inputs where the second step of input 2 raises, the results are exactly
those of inputs 1 and 3, input 2 keeps its step-1 write but performs no
further write, and nothing is raised to the caller. -/
theorem C1_partial_failure_isolation :
    (∀ (α : Type) (env : PipeEnv α) (steps : List (α → Option α))
      (l1 : List String) (b : String) (l2 : List String),
      process_data_pipeline env steps (l1 ++ b :: l2) =
        process_data_pipeline env steps l1 ++
          process_data_pipeline env steps [b] ++
          process_data_pipeline env steps l2) ∧
    process_data_pipeline c1Env c1Steps ["a.csv", "b.csv", "c.csv"] =
      ["curated/a_1_20250101_120000_2_20250101_120000.csv",
       "curated/c_1_20250101_120000_2_20250101_120000.csv"] ∧
    pipelineWrites c1Env c1Steps ["a.csv", "b.csv", "c.csv"] =
      ["processed/a_1_20250101_120000.csv",
       "curated/a_1_20250101_120000_2_20250101_120000.csv",
       "processed/b_1_20250101_120000.csv",
       "processed/c_1_20250101_120000.csv",
       "curated/c_1_20250101_120000_2_20250101_120000.csv"] := by
  refine ⟨fun α env steps l1 b l2 => ?_, by decide, by decide⟩
  cases hb : (processInput env steps b).2 <;>
    simp [pipeline_eq_filterMap, List.filterMap_append, List.filterMap_cons,
      hb]

/-- C3: whenever an input reaches a final pipeline state, its result
entry is finalZone/finalPath exactly when the final zone is enriched or
curated, and inputs ending in any other zone (such as raw or processed)
contribute no result entry. -/
theorem C3_result_iff_enriched_or_curated {α : Type} (env : PipeEnv α)
    (steps : List (α → Option α)) (input : String) (st : PipeState α)
    (h : pipelineFinalState env steps input = some st) :
    ((processInput env steps input).2 = some (st.zone ++ "/" ++ st.path) ↔
      st.zone = "enriched" ∨ st.zone = "curated") ∧
    (st.zone ≠ "enriched" ∧ st.zone ≠ "curated" →
      (processInput env steps input).2 = none) := by
  have hr := processInput_result env steps input
  rw [h] at hr
  constructor
  · constructor
    · intro he
      rw [hr] at he
      unfold finalizeRun at he
      by_cases hz : (st.zone == "curated" || st.zone == "enriched") = true
      · rcases (by simpa using hz : st.zone = "curated" ∨ st.zone = "enriched")
          with h1 | h1
        · exact Or.inr h1
        · exact Or.inl h1
      · rw [Bool.not_eq_true] at hz
        simp [hz] at he
    · intro he
      rw [hr]
      unfold finalizeRun
      rcases he with h1 | h1 <;> simp [h1]
  · intro hne
    rw [hr]
    unfold finalizeRun
    simp [hne.1, hne.2]

/-- c3Env is a trivial environment whose parse always succeeds with
content 0, used to instantiate C3 at a concrete input. -/
def c3Env : PipeEnv Nat where
  isLocal := fun _ => false
  uploadRawOk := fun _ => true
  parse := fun _ => some 0
  saveOk := fun _ => true
  ts := fun _ _ => "t"

/-- C3 witness: a zero-step run on the key curated/x.csv ends in the
curated zone and is returned as its own key. -/
theorem C3_result_iff_enriched_or_curated_witness :
    (processInput c3Env ([] : List (Nat → Option Nat)) "curated/x.csv").2 =
      some "curated/x.csv" :=
  (C3_result_iff_enriched_or_curated c3Env [] "curated/x.csv"
    ⟨0, "curated", "x.csv"⟩ (by decide)).1.mpr (Or.inr rfl)

/-- lastIdxOf over an append prefers the right part. -/
theorem lastIdxOf_append (xs ys : List Char) (c : Char) :
    lastIdxOf (xs ++ ys) c =
      match lastIdxOf ys c with
      | some i => some (xs.length + i)
      | none => lastIdxOf xs c := by
  induction xs with
  | nil => cases h : lastIdxOf ys c <;> simp [lastIdxOf, h]
  | cons x xs ih =>
    simp only [List.cons_append, lastIdxOf, List.append_eq, ih]
    cases h : lastIdxOf ys c with
    | none => rfl
    | some i =>
      simp only [List.length_cons]
      congr 1
      omega

/-- a character absent from a list has no last index. -/
theorem lastIdxOf_eq_none {c : Char} {xs : List Char} (h : c ∉ xs) :
    lastIdxOf xs c = none := by
  induction xs with
  | nil => rfl
  | cons x t ih =>
    have hx : x ≠ c := fun he => h (he ▸ List.mem_cons_self x t)
    have ht : c ∉ t := fun hm => h (List.mem_cons_of_mem x hm)
    simp [lastIdxOf, ih ht, hx]

/-- splitext splits a dot-free, slash-free, nonempty base followed by the
literal extension .csv at that extension. -/
theorem splitext_of_ext (base : String) (hdot : '.' ∉ base.data)
    (hslash : '/' ∉ base.data) (hne : base.data ≠ []) :
    splitext (base ++ ".csv") = (base, ".csv") := by
  have hdata : (base ++ ".csv").data = base.data ++ ".csv".data :=
    String.data_append base ".csv"
  have hdotIdx : lastIdxOf (base ++ ".csv").data '.' = some base.data.length := by
    rw [hdata, lastIdxOf_append]
    have : lastIdxOf ".csv".data '.' = some 0 := by decide
    simp [this]
  have hslashIdx : lastIdxOf (base ++ ".csv").data '/' = none := by
    rw [hdata, lastIdxOf_append]
    have h1 : lastIdxOf ".csv".data '/' = none := by decide
    simp [h1, lastIdxOf_eq_none hslash]
  have htake : (base ++ ".csv").data.take base.data.length = base.data := by
    rw [hdata]; exact List.take_left base.data ".csv".data
  have hdrop : (base ++ ".csv").data.drop base.data.length = ".csv".data := by
    rw [hdata]; exact List.drop_left base.data ".csv".data
  have hany2 : (base.data.any fun c => decide (c ≠ '.')) = true := by
    rcases List.exists_mem_of_ne_nil base.data hne with ⟨x, hx⟩
    refine List.any_eq_true.mpr ⟨x, hx, ?_⟩
    simp only [ne_eq, decide_eq_true_eq]
    intro he
    subst he
    exact hdot hx
  simp only [splitext, hdotIdx, hslashIdx, List.drop_zero, Nat.sub_zero,
    Nat.not_lt_zero, if_false, htake, hdrop, hany2, if_true, string_mk_data]

/-- merging a closed left pair inside a right-nested string append. -/
theorem append_left_merge (a b c : String) (h : a ++ b = c) (X : String) :
    a ++ (b ++ X) = c ++ X := by
  rw [← String.append_assoc, h]

/-- c4Env is the C4 scenario: the single S3-key input notes.csv parses
successfully, every save succeeds, and the two steps see the timestamps
t1 and t2. -/
def c4Env (t1 t2 : String) : PipeEnv Nat where
  isLocal := fun _ => false
  uploadRawOk := fun _ => true
  parse := fun k => if k == "notes.csv" then some 2 else none
  saveOk := fun _ => true
  ts := fun _ i => if i == 0 then t1 else t2

/-- c4Steps is a two-step pipeline in which both steps succeed. -/
def c4Steps : List (Nat → Option Nat) :=
  [fun n => some n, fun n => some n]

/-- one symbolic evaluation of the C4 scenario: the step-2 output name is
built from the step-1 output name, so the earlier suffix accumulates. -/
theorem c4_processInput (t1 t2 : String) (h1 : '.' ∉ t1.data)
    (h2 : '/' ∉ t1.data) :
    processInput (c4Env t1 t2) c4Steps "notes.csv" =
      (["processed/notes_1_" ++ t1 ++ ".csv",
        "curated/notes_1_" ++ t1 ++ "_2_" ++ t2 ++ ".csv"],
       some ("curated/notes_1_" ++ t1 ++ "_2_" ++ t2 ++ ".csv")) := by
  have hd : '.' ∉ ("notes_1_" ++ t1).data := by
    rw [String.data_append]
    simp only [List.mem_append, not_or]
    exact ⟨by decide, h1⟩
  have hs : '/' ∉ ("notes_1_" ++ t1).data := by
    rw [String.data_append]
    simp only [List.mem_append, not_or]
    exact ⟨by decide, h2⟩
  have hn : ("notes_1_" ++ t1).data ≠ [] := by
    rw [String.data_append]
    simp
  have hb : ("notes" ++ "_" ++ "1" ++ "_" ++ t1 : String) = "notes_1_" ++ t1 :=
    congrArg (fun s => s ++ t1) (by decide)
  have e1 : splitext "notes.csv" = ("notes", ".csv") := by decide
  have e2 : splitext (("notes_1_" ++ t1) ++ ".csv") =
      ("notes_1_" ++ t1, ".csv") :=
    splitext_of_ext ("notes_1_" ++ t1) hd hs hn
  have hsl : splitSlash "notes.csv" = ["notes.csv"] := by decide
  have hbn : basename "notes.csv" = "notes.csv" := by decide
  have htz0 : targetZone 0 2 = "processed" := by decide
  have htz1 : targetZone 1 2 = "curated" := by decide
  have hts1 : (toString (1 : Nat)) = "1" := by decide
  have hts2 : (toString (2 : Nat)) = "2" := by decide
  simp only [processInput, resolveInput, runSteps, finalizeRun, c4Env, c4Steps,
    hsl, hbn, e1, e2, hb, htz0, htz1, hts1, hts2,
    List.length_cons, List.length_nil, beq_self_eq_true, if_true, if_false,
    Bool.false_eq_true, gt_iff_lt, Nat.reduceAdd,
    (by decide : ((1 : Nat) == 0) = false)]
  simp
  constructor
  · simp only [String.append_assoc]
    rw [append_left_merge "processed/" "notes_1_" "processed/notes_1_"
      (by decide)]
  · simp only [String.append_assoc]
    rw [append_left_merge "curated/" "notes_1_" "curated/notes_1_" (by decide),
      append_left_merge "_" "2" "_2" (by decide),
      append_left_merge "_2" "_" "_2_" (by decide)]

/-- C4: the claim predicts the second write key curated/notes_2_<ts>.csv
and the result list [curated/notes_2_<ts>.csv]; with both timestamps
equal to 20250101_120000 the run instead names the second output from
the first output name, writes curated/notes_1_<ts>_2_<ts>.csv, and never
writes any key named notes_2_<ts>.csv. -/
theorem C4_second_step_name_counterexample :
    process_data_pipeline (c4Env "20250101_120000" "20250101_120000") c4Steps
        ["notes.csv"] =
      ["curated/notes_1_20250101_120000_2_20250101_120000.csv"] ∧
    pipelineWrites (c4Env "20250101_120000" "20250101_120000") c4Steps
        ["notes.csv"] =
      ["processed/notes_1_20250101_120000.csv",
       "curated/notes_1_20250101_120000_2_20250101_120000.csv"] ∧
    "curated/notes_1_20250101_120000_2_20250101_120000.csv" ≠
      "curated/notes_2_20250101_120000.csv" ∧
    "curated/notes_2_20250101_120000.csv" ∉
      pipelineWrites (c4Env "20250101_120000" "20250101_120000") c4Steps
        ["notes.csv"] := by
  refine ⟨by decide, by decide, by decide, by decide⟩

/-- C4 (amended): in the notes.csv two-step scenario with step
timestamps t1 and t2, the run performs exactly the write
processed/notes_1_<t1>.csv and the write
curated/notes_1_<t1>_2_<t2>.csv (each step names its output from the
current path, so earlier step suffixes accumulate), and returns exactly
the curated key. -/
theorem C4_two_step_run_keys (t1 t2 : String) (h1 : '.' ∉ t1.data)
    (h2 : '/' ∉ t1.data) :
    process_data_pipeline (c4Env t1 t2) c4Steps ["notes.csv"] =
      ["curated/notes_1_" ++ t1 ++ "_2_" ++ t2 ++ ".csv"] ∧
    pipelineWrites (c4Env t1 t2) c4Steps ["notes.csv"] =
      ["processed/notes_1_" ++ t1 ++ ".csv",
       "curated/notes_1_" ++ t1 ++ "_2_" ++ t2 ++ ".csv"] := by
  have hpi := c4_processInput t1 t2 h1 h2
  constructor
  · simp [process_data_pipeline, hpi]
  · simp [pipelineWrites, hpi]

/-- C4 witness: the amended claim evaluated at two concrete timestamps
one second apart. -/
theorem C4_two_step_run_keys_witness :
    process_data_pipeline (c4Env "20250101_120000" "20250101_120001") c4Steps
        ["notes.csv"] =
      ["curated/notes_1_" ++ "20250101_120000" ++ "_2_" ++ "20250101_120001" ++
        ".csv"] ∧
    pipelineWrites (c4Env "20250101_120000" "20250101_120001") c4Steps
        ["notes.csv"] =
      ["processed/notes_1_" ++ "20250101_120000" ++ ".csv",
       "curated/notes_1_" ++ "20250101_120000" ++ "_2_" ++ "20250101_120001" ++
        ".csv"] :=
  C4_two_step_run_keys "20250101_120000" "20250101_120001" (by decide)
    (by decide)

/-- c8Attempts is a C8 scenario in which both pandas reads raise and the
csv.DictReader fallback succeeds. -/
def c8Attempts : CsvAttempts where
  readDefault := fun _ => none
  readLatin1 := fun _ => none
  dictReader := fun _ => some [[("a", CsvField.str "x")]]

/-- C8: the claim predicts a failure report once the default read and the
latin1 retry both fail, with no further recovery; in the code a third
attempt with the plain csv reader runs and here returns content. -/
theorem C8_third_fallback_counterexample :
    c8Attempts.readDefault [] = none ∧
    c8Attempts.readLatin1 [] = none ∧
    parse_csv c8Attempts [] = some [[("a", CsvField.str "x")]] ∧
    parse_csv c8Attempts [] ≠ none := by
  refine ⟨rfl, rfl, rfl, by simp [parse_csv, c8Attempts]⟩

/-- C8 (amended): the csv parse tries the default encoding first and
returns its result when it succeeds; on failure it retries once with the
latin1 fallback encoding; when that retry also fails it does not report
failure immediately but makes one final attempt with the plain csv
reader, whose result (content or propagated failure) becomes the
result. -/
theorem C8_csv_retry_chain (a : CsvAttempts) (bytes : List Char) :
    (∀ r, a.readDefault bytes = some r → parse_csv a bytes = some r) ∧
    (a.readDefault bytes = none →
      ∀ r, a.readLatin1 bytes = some r → parse_csv a bytes = some r) ∧
    (a.readDefault bytes = none → a.readLatin1 bytes = none →
      parse_csv a bytes = a.dictReader bytes) := by
  refine ⟨fun r h => ?_, fun h0 r h => ?_, fun h0 h1 => ?_⟩
  · simp [parse_csv, h]
  · simp [parse_csv, h0, h]
  · simp [parse_csv, h0, h1]

/-- c7Env is a C7 scenario: the key data.bin downloads successfully with
three bytes; no parser is ever consulted for it. -/
def c7Env : FileEnv where
  download := fun k => if k == "data.bin" then some ['b', 'i', 'n'] else none
  parseCsvFile := fun _ => none
  parseJson := fun _ => none
  parseYaml := fun _ => none
  parseExcel := fun _ => none
  parseText := fun _ => none

/-- C7: the claim predicts that parsing a .bin file passes the original
bytes through; in the code the parsed content is None while the content
type is the generic binary marker, so the bytes are not returned. -/
theorem C7_passthrough_counterexample :
    c7Env.download "data.bin" = some ['b', 'i', 'n'] ∧
    download_and_parse c7Env "data.bin" =
      (none, some "application/octet-stream") := by
  refine ⟨by decide, by decide⟩

/-- registeredExtensions are the extensions download_and_parse
dispatches on (including the recognized-but-unimplemented .pdf). -/
def registeredExtensions : List String :=
  [".csv", ".tsv", ".json", ".yaml", ".yml", ".xlsx", ".xls", ".txt", ".pdf"]

/-- C7 (amended): for a downloadable key whose extension is outside the
registered codec extensions, download_and_parse returns parsed content
None together with the generic binary marker
application/octet-stream; the file's bytes are not passed through. -/
theorem C7_unregistered_extension_none (env : FileEnv) (key : String)
    (bytes : List Char) (hdl : env.download key = some bytes)
    (hext : fileExtension key ∉ registeredExtensions) :
    download_and_parse env key = (none, some "application/octet-stream") := by
  obtain ⟨h1, h2, h3, h4, h5, h6, h7, h8, h9⟩ :
      fileExtension key ≠ ".csv" ∧ fileExtension key ≠ ".tsv" ∧
      fileExtension key ≠ ".json" ∧ fileExtension key ≠ ".yaml" ∧
      fileExtension key ≠ ".yml" ∧ fileExtension key ≠ ".xlsx" ∧
      fileExtension key ≠ ".xls" ∧ fileExtension key ≠ ".txt" ∧
      fileExtension key ≠ ".pdf" := by
    simpa [registeredExtensions] using hext
  simp [download_and_parse, hdl, h1, h2, h3, h4, h5, h6, h7, h8, h9]

/-- C7 witness: data.bin is outside the registered extensions and yields
content None with the binary marker. -/
theorem C7_unregistered_extension_none_witness :
    download_and_parse c7Env "data.bin" =
      (none, some "application/octet-stream") :=
  C7_unregistered_extension_none c7Env "data.bin" ['b', 'i', 'n'] (by decide)
    (by decide)

/-- matchesFilters succeeds exactly when every filter key is present with
the filter's value. -/
theorem matchesFilters_iff (filters md : List (String × String)) :
    matchesFilters filters md = true ↔
      ∀ kv ∈ filters, List.lookup kv.1 md = some kv.2 := by
  unfold matchesFilters
  rw [List.all_eq_true]
  constructor
  · intro h kv hkv
    have hm := h kv hkv
    cases hl : List.lookup kv.1 md with
    | none => rw [hl] at hm; exact absurd hm (by simp)
    | some v =>
      rw [hl] at hm
      simp only [beq_iff_eq] at hm
      rw [hm]
  · intro h kv hkv
    rw [h kv hkv]
    simp

/-- C9: the metadata search returns exactly the listed objects whose
metadata record is fetchable and contains every filter key with the
exact filter value, and the result is a sublist of the listing, so the
listing order is preserved. -/
theorem C9_search_exact_match_in_order (env : SearchEnv)
    (filters : List (String × String)) (zone : Option String) :
    (∀ fi, fi ∈ search_files_by_metadata env filters zone ↔
      fi ∈ env.listFiles zone ∧
        ∃ m, env.getMetadata fi.key = some m ∧
          ∀ kv ∈ filters, List.lookup kv.1 m.metadata = some kv.2) ∧
    (search_files_by_metadata env filters zone).Sublist (env.listFiles zone) := by
  constructor
  · intro fi
    unfold search_files_by_metadata
    rw [List.mem_filter]
    constructor
    · rintro ⟨hmem, hp⟩
      refine ⟨hmem, ?_⟩
      cases hg : env.getMetadata fi.key with
      | none => rw [hg] at hp; exact absurd hp (by simp)
      | some m =>
        rw [hg] at hp
        exact ⟨m, rfl, (matchesFilters_iff filters m.metadata).mp hp⟩
    · rintro ⟨hmem, m, hg, hall⟩
      refine ⟨hmem, ?_⟩
      rw [hg]
      exact (matchesFilters_iff filters m.metadata).mpr hall
  · exact List.filter_sublist _

/-- a zone name that is neither curated nor enriched fails the finalize
test. -/
theorem finalize_none_of_ne {α : Type} (c : α) (z p : String)
    (h1 : z ≠ "curated") (h2 : z ≠ "enriched") :
    finalizeRun (⟨c, z, p⟩ : PipeState α) = none := by
  unfold finalizeRun
  simp [h1, h2]

/-- splitSlash of a single-slash key with slash-free parts gives the two
parts. -/
theorem splitSlash_two_parts (z fname : String) (hz : '/' ∉ z.data)
    (hf : '/' ∉ fname.data) :
    splitSlash (z ++ "/" ++ fname) = [z, fname] := by
  unfold splitSlash
  have hdata : (z ++ "/" ++ fname).data =
      intercalateChar '/' [z.data, fname.data] := by
    simp [String.data_append, intercalateChar]
  rw [hdata, splitOnChar_intercalateChar (by simp) ?hc]
  case hc =>
    intro p hp
    simp only [List.mem_cons, List.not_mem_nil, or_false] at hp
    rcases hp with rfl | rfl
    · exact hz
    · exact hf
  simp [string_mk_data]

/-- C10: with an empty step list, an S3-key input of the form
zone/filename whose zone is enriched or curated and which parses
successfully is returned as its own key with no store write; a local
input never yields a result entry; and any other S3-key input (single
segment, or a zone outside enriched and curated such as raw or
processed) yields no result entry and no write. -/
theorem C10_empty_steps_zone_passthrough {α : Type} (env : PipeEnv α) :
    (∀ (z fname : String) (c : α), (z = "enriched" ∨ z = "curated") →
      '/' ∉ fname.data →
      env.isLocal (z ++ "/" ++ fname) = false →
      env.parse (z ++ "/" ++ fname) = some c →
      processInput env ([] : List (α → Option α)) (z ++ "/" ++ fname) =
        ([], some (z ++ "/" ++ fname))) ∧
    (∀ input, env.isLocal input = true →
      (processInput env ([] : List (α → Option α)) input).2 = none) ∧
    (∀ input, env.isLocal input = false →
      ((splitSlash input).length ≤ 1 ∨
        ((splitSlash input).headD "raw" ≠ "enriched" ∧
         (splitSlash input).headD "raw" ≠ "curated")) →
      processInput env ([] : List (α → Option α)) input = ([], none)) := by
  refine ⟨?_, ?_, ?_⟩
  · intro z fname c hz hf hl hp
    have hzs : '/' ∉ z.data := by
      rcases hz with rfl | rfl <;> decide
    have hsplit : splitSlash (z ++ "/" ++ fname) = [z, fname] :=
      splitSlash_two_parts z fname hzs hf
    have hbn : basename (z ++ "/" ++ fname) = fname := by
      unfold basename
      rw [hsplit]
      rfl
    simp only [processInput, resolveInput, hl, hp, hsplit, hbn, runSteps,
      finalizeRun, Bool.false_eq_true, if_false, List.length_cons,
      List.length_nil, List.headD_cons, gt_iff_lt]
    rcases hz with rfl | rfl <;> simp
  · intro input hl
    simp only [processInput, resolveInput, hl, if_true]
    cases hup : env.uploadRawOk input with
    | false => simp
    | true =>
      cases hp : env.parse ("raw/" ++ basename input) with
      | none => simp
      | some c =>
        simp [runSteps, finalize_none_of_ne c "raw" (basename input)
          (by decide) (by decide)]
  · intro input hl hcond
    simp only [processInput, resolveInput, hl, Bool.false_eq_true, if_false]
    cases hp : env.parse input with
    | none => simp
    | some c =>
      by_cases hlen : (splitSlash input).length > 1
      · rcases hcond with hc1 | hc2
        · omega
        · simp only [hlen, if_true, runSteps]
          have hfin := finalize_none_of_ne c ((splitSlash input).headD "raw")
            (basename input) hc2.2 hc2.1
          simpa using hfin
      · simp only [hlen, if_false, runSteps]
        simp [runSteps, finalize_none_of_ne c "raw" (basename input)
          (by decide) (by decide)]

/-- renderInt writes the same decimal text as toString on sample
values. -/
theorem renderInt_toString_samples :
    renderInt 0 = (toString (0 : Int)).data ∧
    renderInt 123 = (toString (123 : Int)).data ∧
    renderInt (-45) = (toString (-45 : Int)).data := by
  decide

